import Mathlib

/-!
Verification development for the marketplace/reddit scraper module
(`src/scrapers/facebook-marketplace.ts`).  The pure assembly, normalization
and tree-flattening logic of the source file is embedded shallowly below;
network fetching is out of scope, so each operation's pure core takes the
already-scanned regex match lists / parsed payloads as inputs.
-/

/-- Result record produced by `parsePost` (interface `RedditPost`). -/
structure RedditPost where
  id : String
  title : String
  subreddit : String
  author : String
  score : Int
  num_comments : Int
  url : String
  permalink : String
  created_utc : Int
  body_preview : String
  is_self : Bool
  thumbnail : Option String
  link_flair_text : Option String
  upvote_ratio : Rat
  awards : Int
deriving DecidableEq, Repr

/-- Result record produced by `parseComment` (interface `RedditComment`). -/
structure RedditComment where
  id : String
  author : String
  body : String
  score : Int
  created_utc : Int
  depth : Int
  is_op : Bool
  awards : Int
  replies_count : Nat
deriving DecidableEq, Repr

/-- Result of `getThread` (interface `RedditThread`). -/
structure RedditThread where
  post : RedditPost
  comments : List RedditComment
  total_comments : Int
deriving DecidableEq, Repr

/-- Raw JSON data payload of a reddit post/comment node, with every field
optional, mirroring the untyped `d` object the source reads fields from.
The `replies` field models the path `d.replies?.data?.children`: `none`
covers a non-object `replies` value (reddit sends `""`) as well as a
missing `data`/`children`, all of which the source treats identically
(reply count 0, no traversal); `some l` is the loaded children array,
each child a wrapped `(kind, data)` node. -/
inductive RawData : Type where
  | mk
    (id name title subredditNamePrefixed subreddit author url permalink
      selftext thumbnail linkFlairText body : Option String)
    (score numComments createdUtc awards depth : Option Int)
    (upvoteRatio : Option Rat) (isSelf : Option Bool)
    (replies : Option (List (String × RawData)))

namespace RawData

def fid : RawData → Option String | mk v _ _ _ _ _ _ _ _ _ _ _ _ _ _ _ _ _ _ _ => v
def fname : RawData → Option String | mk _ v _ _ _ _ _ _ _ _ _ _ _ _ _ _ _ _ _ _ => v
def ftitle : RawData → Option String | mk _ _ v _ _ _ _ _ _ _ _ _ _ _ _ _ _ _ _ _ => v
def fsubredditNamePrefixed : RawData → Option String | mk _ _ _ v _ _ _ _ _ _ _ _ _ _ _ _ _ _ _ _ => v
def fsubreddit : RawData → Option String | mk _ _ _ _ v _ _ _ _ _ _ _ _ _ _ _ _ _ _ _ => v
def fauthor : RawData → Option String | mk _ _ _ _ _ v _ _ _ _ _ _ _ _ _ _ _ _ _ _ => v
def furl : RawData → Option String | mk _ _ _ _ _ _ v _ _ _ _ _ _ _ _ _ _ _ _ _ => v
def fpermalink : RawData → Option String | mk _ _ _ _ _ _ _ v _ _ _ _ _ _ _ _ _ _ _ _ => v
def fselftext : RawData → Option String | mk _ _ _ _ _ _ _ _ v _ _ _ _ _ _ _ _ _ _ _ => v
def fthumbnail : RawData → Option String | mk _ _ _ _ _ _ _ _ _ v _ _ _ _ _ _ _ _ _ _ => v
def flinkFlairText : RawData → Option String | mk _ _ _ _ _ _ _ _ _ _ v _ _ _ _ _ _ _ _ _ => v
def fbody : RawData → Option String | mk _ _ _ _ _ _ _ _ _ _ _ v _ _ _ _ _ _ _ _ => v
def fscore : RawData → Option Int | mk _ _ _ _ _ _ _ _ _ _ _ _ v _ _ _ _ _ _ _ => v
def fnumComments : RawData → Option Int | mk _ _ _ _ _ _ _ _ _ _ _ _ _ v _ _ _ _ _ _ => v
def fcreatedUtc : RawData → Option Int | mk _ _ _ _ _ _ _ _ _ _ _ _ _ _ v _ _ _ _ _ => v
def fawards : RawData → Option Int | mk _ _ _ _ _ _ _ _ _ _ _ _ _ _ _ v _ _ _ _ => v
def fdepth : RawData → Option Int | mk _ _ _ _ _ _ _ _ _ _ _ _ _ _ _ _ v _ _ _ => v
def fupvoteRatio : RawData → Option Rat | mk _ _ _ _ _ _ _ _ _ _ _ _ _ _ _ _ _ v _ _ => v
def fisSelf : RawData → Option Bool | mk _ _ _ _ _ _ _ _ _ _ _ _ _ _ _ _ _ _ v _ => v
def freplies : RawData → Option (List (String × RawData)) | mk _ _ _ _ _ _ _ _ _ _ _ _ _ _ _ _ _ _ _ v => v

end RawData

/-- Dual-shape input of the normalizers: a JSON node that is either a raw
wrapped node (an object with `kind` and `data` keys) or an already
unwrapped data payload. -/
inductive RawNode : Type where
  | wrapped (kind : String) (data : RawData)
  | bare (data : RawData)

/-- Shallow embedding of `const d = data?.data || data`: a wrapped node
yields its `data` payload (an object, hence truthy); a bare payload has no
`data` key, so the `||` falls through to the payload itself. -/
def unwrapNode : RawNode → RawData
  | .wrapped _ d => d
  | .bare d => d

/-- Shallow embedding of the JS idiom `v || dflt` for an optional string
`v`: a missing value and the empty string (both falsy) give `dflt`. -/
def strOr (v : Option String) (dflt : String) : String :=
  match v with
  | some s => if s = "" then dflt else s
  | none => dflt

/-- Embedding of `truncate(text, max)` from the source: return `text`
unchanged when it is empty or no longer than `max`, else the first `max`
characters followed by three ASCII dots. -/
def truncate (text : String) (max : Nat) : String :=
  if text = "" ∨ text.length ≤ max then text
  else String.mk (text.data.take max) ++ "..."

/-- Embedding of `parsePost(data)`. -/
def parsePost (node : RawNode) : RedditPost :=
  let d := unwrapNode node
  { id := strOr d.fid (strOr d.fname "")
    title := strOr d.ftitle ""
    subreddit := strOr d.fsubredditNamePrefixed ("r/" ++ strOr d.fsubreddit "")
    author := strOr d.fauthor "[deleted]"
    score := d.fscore.getD 0
    num_comments := d.fnumComments.getD 0
    url := strOr d.furl ""
    permalink :=
      match d.fpermalink with
      | some p => if p = "" then "" else "https://reddit.com" ++ p
      | none => ""
    created_utc := d.fcreatedUtc.getD 0
    body_preview := truncate (strOr d.fselftext "") 500
    is_self := d.fisSelf.getD false
    thumbnail :=
      match d.fthumbnail with
      | some t => if t = "" ∨ t = "self" ∨ t = "default" then none else some t
      | none => none
    link_flair_text :=
      match d.flinkFlairText with
      | some t => if t = "" then none else some t
      | none => none
    upvote_ratio := d.fupvoteRatio.getD 0
    awards := d.fawards.getD 0 }

/-- Embedding of `parseComment(data, opAuthor)`.  Note `is_op` compares the
raw (undefaulted) `author` field with `opAuthor` via strict equality, and
`replies_count` is the number of directly loaded children. -/
def parseComment (node : RawNode) (opAuthor : String) : RedditComment :=
  let d := unwrapNode node
  { id := strOr d.fid (strOr d.fname "")
    author := strOr d.fauthor "[deleted]"
    body := truncate (strOr d.fbody "") 1000
    score := d.fscore.getD 0
    created_utc := d.fcreatedUtc.getD 0
    depth := d.fdepth.getD 0
    is_op := d.fauthor = some opAuthor
    awards := d.fawards.getD 0
    replies_count :=
      match d.freplies with
      | some l => l.length
      | none => 0 }

/-- Size of a loaded replies field is smaller than its carrier payload. -/
theorem sizeOf_lt_of_freplies {d : RawData} {rs : List (String × RawData)}
    (h : d.freplies = some rs) : sizeOf rs < sizeOf d := by
  cases d with
  | mk a b c e f g h1 h2 h3 h4 h5 h6 h7 h8 h9 h10 h11 h12 h13 r =>
    simp only [RawData.freplies] at h
    subst h
    simp only [RawData.mk.sizeOf_spec, Option.some.sizeOf_spec]
    omega

/-- Embedding of `flattenComments(children, opAuthor, maxDepth = 3)`:
skip continuation (`kind == 'more'`) nodes entirely; for any other node,
emit its normalized comment when its depth is at most `maxDepth`, and
recurse into its loaded `replies` children unconditionally. -/
def flattenComments (children : List (String × RawData)) (opAuthor : String)
    (maxDepth : Int := 3) : List RedditComment :=
  match children with
  | [] => []
  | (kind, d) :: rest =>
    if kind = "more" then flattenComments rest opAuthor maxDepth
    else
      let c := parseComment (RawNode.wrapped kind d) opAuthor
      (if c.depth ≤ maxDepth then [c] else []) ++
        (match h : d.freplies with
         | some rs => flattenComments rs opAuthor maxDepth
         | none => []) ++
        flattenComments rest opAuthor maxDepth
termination_by sizeOf children
decreasing_by
  · simp only [List.cons.sizeOf_spec]; omega
  · have := sizeOf_lt_of_freplies h
    simp only [List.cons.sizeOf_spec, Prod.mk.sizeOf_spec]
    omega
  · simp only [List.cons.sizeOf_spec]; omega

/-- Spec-side reference traversal (from §4.4 of the spec): the pre-order
sequence of all non-continuation nodes of the loaded tree, descending into
every non-continuation node's loaded children unconditionally (no depth
bound on traversal), and never descending through a `more` node. -/
def visitOrder (children : List (String × RawData)) : List (String × RawData) :=
  match children with
  | [] => []
  | (kind, d) :: rest =>
    if kind = "more" then visitOrder rest
    else
      (kind, d) ::
        ((match h : d.freplies with
          | some rs => visitOrder rs
          | none => []) ++
          visitOrder rest)
termination_by sizeOf children
decreasing_by
  · simp only [List.cons.sizeOf_spec]; omega
  · have := sizeOf_lt_of_freplies h
    simp only [List.cons.sizeOf_spec, Prod.mk.sizeOf_spec]
    omega
  · simp only [List.cons.sizeOf_spec]; omega

/-- Total number of (wrapped) nodes in a loaded comment forest, including
continuation nodes and everything below them. -/
def nodeCount (children : List (String × RawData)) : Nat :=
  match children with
  | [] => 0
  | (_, d) :: rest =>
    1 +
      (match h : d.freplies with
       | some rs => nodeCount rs
       | none => 0) +
      nodeCount rest
termination_by sizeOf children
decreasing_by
  · have := sizeOf_lt_of_freplies h
    simp only [List.cons.sizeOf_spec, Prod.mk.sizeOf_spec]
    omega
  · simp only [List.cons.sizeOf_spec]; omega

theorem flattenComments_nil (op : String) (md : Int) :
    flattenComments [] op md = [] := by
  simp [flattenComments]

theorem flattenComments_more (d : RawData) (rest : List (String × RawData))
    (op : String) (md : Int) :
    flattenComments (("more", d) :: rest) op md = flattenComments rest op md := by
  simp [flattenComments]

theorem flattenComments_cons (kind : String) (d : RawData)
    (rest : List (String × RawData)) (op : String) (md : Int)
    (hm : ¬ kind = "more") :
    flattenComments ((kind, d) :: rest) op md =
      (if (parseComment (RawNode.wrapped kind d) op).depth ≤ md
        then [parseComment (RawNode.wrapped kind d) op] else []) ++
      (match d.freplies with
       | some rs => flattenComments rs op md
       | none => []) ++
      flattenComments rest op md := by
  rw [flattenComments]
  simp only [if_neg hm]
  congr 2
  split
  next rs h => rw [h]
  next h => rw [h]

theorem visitOrder_nil : visitOrder [] = [] := by
  simp [visitOrder]

theorem visitOrder_more (d : RawData) (rest : List (String × RawData)) :
    visitOrder (("more", d) :: rest) = visitOrder rest := by
  simp [visitOrder]

theorem visitOrder_cons (kind : String) (d : RawData)
    (rest : List (String × RawData)) (hm : ¬ kind = "more") :
    visitOrder ((kind, d) :: rest) =
      (kind, d) ::
        ((match d.freplies with
          | some rs => visitOrder rs
          | none => []) ++
          visitOrder rest) := by
  rw [visitOrder]
  simp only [if_neg hm]
  congr 2
  split
  next rs h => rw [h]
  next h => rw [h]

theorem nodeCount_nil : nodeCount [] = 0 := by
  simp [nodeCount]

theorem nodeCount_cons (kind : String) (d : RawData)
    (rest : List (String × RawData)) :
    nodeCount ((kind, d) :: rest) =
      1 +
        (match d.freplies with
         | some rs => nodeCount rs
         | none => 0) +
        nodeCount rest := by
  rw [nodeCount]
  congr 2
  split
  next rs h => rw [h]
  next h => rw [h]

/-- Key equation: the flattener's output is exactly the depth-filtered
normalization of the full pre-order traversal. -/
theorem flattenComments_eq_filter_visitOrder
    (cs : List (String × RawData)) (op : String) (md : Int) :
    flattenComments cs op md =
      ((visitOrder cs).map (fun n => parseComment (RawNode.wrapped n.1 n.2) op)).filter
        (fun c => decide (c.depth ≤ md)) := by
  induction cs, op, md using flattenComments.induct with
  | case1 op md => simp [flattenComments_nil, visitOrder_nil]
  | case2 op md d rest ih =>
    rw [flattenComments_more, visitOrder_more, ih]
  | case3 op md kind d rest hm ihr ih =>
    rw [flattenComments_cons kind d rest op md hm, visitOrder_cons kind d rest hm]
    rcases hr : d.freplies with _ | rs
    · simp only [hr, ih, List.map_cons, List.map_append, List.map_nil,
        List.filter_append, List.filter_cons, List.filter_nil, List.nil_append]
      by_cases hd : (parseComment (RawNode.wrapped kind d) op).depth ≤ md
      · simp [hd]
      · simp [hd]
    · simp only [hr, ih, ihr rs hr, List.map_cons, List.map_append,
        List.filter_append, List.filter_cons]
      by_cases hd : (parseComment (RawNode.wrapped kind d) op).depth ≤ md
      · simp [hd]
      · simp [hd]

theorem visitOrder_length_le_nodeCount (cs : List (String × RawData)) :
    (visitOrder cs).length ≤ nodeCount cs := by
  induction cs using visitOrder.induct with
  | case1 => simp [visitOrder_nil, nodeCount_nil]
  | case2 d rest ih =>
    rw [visitOrder_more, nodeCount_cons]
    omega
  | case3 kind d rest hm ihr ih =>
    rw [visitOrder_cons kind d rest hm, nodeCount_cons]
    rcases hr : d.freplies with _ | rs
    · simp only [hr, List.length_cons, List.length_append, List.length_nil]
      omega
    · have h1 := ihr rs hr
      simp only [hr, List.length_cons, List.length_append]
      omega


/-- Seller sub-record of a marketplace listing. -/
structure SellerInfo where
  name : String
  joined : Option String
  rating : Option String
  profile_url : Option String
deriving DecidableEq, Repr

/-- Listing record (interface `MarketplaceListing`). -/
structure MarketplaceListing where
  id : String
  title : String
  price : Rat
  currency : String
  location : String
  seller : SellerInfo
  condition : Option String
  posted_at : String
  images : List String
  url : String
  description : String
  category : Option String
  is_available : Bool
deriving DecidableEq, Repr

/-- Category record (interface `MarketplaceCategory`). -/
structure MarketplaceCategory where
  id : String
  name : String
  url : String
deriving DecidableEq, Repr

/-- Minimal listing tuple synthesized by `extractFbData`'s fallback scan
(strategy 3): one entry per match of the flat `listing_id`/`listing_title`/
`amount`/`currency` pattern, in document order, with no deduplication. -/
structure ExtractedItem where
  id : String
  title : String
  price : Rat
  currency : String
deriving DecidableEq, Repr

/-- Possible successful results of `extractFbData`: either an object
carrying an `extracted_listings` array (synthesized by the fallback tuple
scan), or some other parsed JSON object (strategies 1-2) without that key.
`searchMarketplace`/`getNewListings` test `fbData?.extracted_listings`, so
only `withListings` selects the structured branch. -/
inductive FbData where
  | withListings (extracted_listings : List ExtractedItem)
  | otherJson
deriving DecidableEq, Repr

/-- Empty seller stub used by the search/new-listings assemblers. -/
def emptySeller : SellerInfo :=
  { name := "", joined := none, rating := none, profile_url := none }

/-- Partial listing built in the structured branch from one extracted
tuple (`searchMarketplace` / `getNewListings`; they differ only in the
`location` value supplied). -/
def structuredListing (loc : String) (item : ExtractedItem) : MarketplaceListing :=
  { id := item.id
    title := item.title
    price := item.price
    currency := item.currency
    location := loc
    seller := emptySeller
    condition := none
    posted_at := ""
    images := []
    url := "https://www.facebook.com/marketplace/item/" ++ item.id
    description := ""
    category := none
    is_available := true }

/-- Stub listing pushed by the markup-fallback card scan for one id. -/
def cardListing (loc : String) (listingId : String) : MarketplaceListing :=
  { id := listingId
    title := ""
    price := 0
    currency := "USD"
    location := loc
    seller := emptySeller
    condition := none
    posted_at := ""
    images := []
    url := "https://www.facebook.com/marketplace/item/" ++ listingId
    description := ""
    category := none
    is_available := true }

/-- Embedding of the markup-fallback `while` loop of `searchMarketplace` /
`getNewListings`: `cardIds` is the stream of ids captured by successive
`marketplace\/item\/(\d+)` matches in document order; the loop keeps a
per-call dedup set (`seen`) and stops once `limit` records are collected. -/
def cardLoop (cardIds : List String) (seen : List String)
    (results : List MarketplaceListing) (loc : String) (limit : Nat) :
    List MarketplaceListing :=
  match cardIds with
  | [] => results
  | i :: rest =>
    if ¬ results.length < limit then results
    else if i ∈ seen then cardLoop rest seen results loc limit
    else cardLoop rest (i :: seen) (results ++ [cardListing loc i]) loc limit

/-- Return shape of `searchMarketplace`. -/
structure SearchMarketplaceOut where
  results : List MarketplaceListing
  total_results : Nat
deriving DecidableEq, Repr

/-- Return shape of `getNewListings` (carries `since`, no `total_results`). -/
structure NewListingsOut where
  results : List MarketplaceListing
  since : String
deriving DecidableEq, Repr

/-- Pure core of `searchMarketplace`, applied after the fetch: `fbData` is
the result of `extractFbData(html)` and `cardIds` the match stream of the
fallback card regex over the same document.  The structured branch slices
the extracted tuples to `limit` with no dedup; otherwise the dedup card
loop runs.  Note `total_results` is the length of the collected array
before the final `slice(0, limit)`. -/
def searchMarketplaceCore (fbData : Option FbData) (cardIds : List String)
    (location : Option String) (limit : Nat) : SearchMarketplaceOut :=
  let results :=
    match fbData with
    | some (.withListings items) =>
        (items.take limit).map (structuredListing (strOr location ""))
    | _ => cardLoop cardIds [] [] (strOr location "") limit
  { results := results.take limit, total_results := results.length }

/-- Pure core of `getNewListings`: same assembly as `searchMarketplace`
but with an empty `location` and the caller-computed `since` timestamp
(wall-clock now minus `sinceHours`, formatted outside this pure core). -/
def getNewListingsCore (fbData : Option FbData) (cardIds : List String)
    (sinceTime : String) (limit : Nat) : NewListingsOut :=
  let results :=
    match fbData with
    | some (.withListings items) => (items.take limit).map (structuredListing "")
    | _ => cardLoop cardIds [] [] "" limit
  { results := results.take limit, since := sinceTime }

/-- Embedding of `match[1].replace(/\/$/, '')`: drop one trailing slash. -/
def stripTrailingSlash (raw : String) : String :=
  if raw.endsWith "/" then raw.dropRight 1 else raw

/-- Embedding of the category scan loop of `getCategories`: `ms` is the
stream of `(slug capture, name capture)` pairs produced by the category
link regex in document order; slugs are normalized (one trailing slash
stripped) before the per-call dedup check. -/
def catLoop (ms : List (String × String)) (seen : List String)
    (acc : List MarketplaceCategory) : List MarketplaceCategory :=
  match ms with
  | [] => acc
  | (raw, nm) :: rest =>
    let slug := stripTrailingSlash raw
    if slug ∈ seen then catLoop rest seen acc
    else
      catLoop rest (slug :: seen)
        (acc ++ [{ id := slug
                   name := nm.trim
                   url := "https://www.facebook.com/marketplace/category/" ++ slug }])

/-- Pure core of `getCategories` (unbounded: no limit). -/
def getCategoriesCore (ms : List (String × String)) : List MarketplaceCategory :=
  catLoop ms [] []

/-- Replace the first occurrence of `pat` (a nonempty literal) in `s`,
mirroring JS `String.prototype.replace` with a non-global regex of plain
characters. -/
def replaceFirstAux (s pat repl : List Char) : List Char :=
  match s with
  | [] => []
  | c :: rest =>
    if pat.isPrefixOf (c :: rest) then repl ++ (c :: rest).drop pat.length
    else c :: replaceFirstAux rest pat repl

/-- String version of `replaceFirstAux`. -/
def jsReplaceFirst (s pat repl : String) : String :=
  String.mk (replaceFirstAux s.data pat.data repl.data)

/-- Embedding of `imgMatch[1].replace(/\\\/\\\/g/, '/')` from
`parseListingFromHtml`: the regex literal has no `g` flag — the final `g`
is part of the pattern — so this replaces the first occurrence of the
five-character sequence backslash-slash-backslash-slash-g with `/`. -/
def normalizeImageUri (uri : String) : String :=
  jsReplaceFirst uri "\\/\\/g" "/"

/-- Embedding of the image-collection loop of `parseListingFromHtml`:
`ms` is the stream of capture-group matches of the image-uri regex in
document order; the loop keeps pushing while fewer than 10 images are
collected. -/
def collectImages (ms : List String) (images : List String) : List String :=
  match ms with
  | [] => images
  | m :: rest =>
    if ¬ images.length < 10 then images
    else collectImages rest (images ++ [normalizeImageUri m])

/-- Images field of `parseListingFromHtml` as a function of the match
stream. -/
def listingImages (ms : List String) : List String :=
  collectImages ms []

/-- Return shape of `searchReddit`. -/
structure SearchRedditOut where
  results : List RedditPost
  total_results : Nat
deriving DecidableEq, Repr

/-- Pure core of `searchReddit`, applied to the parsed response: maps
every element of `json?.data?.children || []` through `parsePost`, with
no cap; `total_results` is the length of the mapped array. -/
def searchRedditCore (children : List (String × RawData)) : SearchRedditOut :=
  let posts := children.map (fun c => parsePost (RawNode.wrapped c.1 c.2))
  { results := posts, total_results := posts.length }

/-- Embedding of the `limit` clamping in `searchReddit`'s query string:
`limit=${Math.min(limit, 100)}`. -/
def redditQueryLimit (limit : Nat) : Nat :=
  min limit 100

/-- Error kinds `getThread` can fail with: the explicit shape check, or
the TypeError raised inside `parsePost` when the root post node is
missing (`d.id` on `undefined`). -/
inductive ThreadError where
  | invalidShape
  | typeError
deriving DecidableEq, Repr

/-- Element of the top-level thread response array, reduced to the only
path the source navigates: `elem?.data?.children`.  `none` stands for a
missing `data` or `children`. -/
structure ThreadElem where
  children : Option (List (String × RawData))

/-- Parsed top-level thread response: either not an array, or an array of
elements. -/
inductive ThreadJson where
  | notArray
  | arr (elems : List ThreadElem)

/-- Pure core of `getThread`, applied to the parsed response: validate
`Array.isArray(json) && json.length >= 2`, then normalize the post at
`json[0]?.data?.children?.[0]`, flatten `json[1]?.data?.children || []`
with the post's author as `opAuthor`, and take `total_comments` from the
post's `num_comments` (not from the flattened list). -/
def getThreadCore (json : ThreadJson) : Except ThreadError RedditThread :=
  match json with
  | .notArray => .error .invalidShape
  | .arr elems =>
    if elems.length < 2 then .error .invalidShape
    else
      match (elems.get? 0).bind (fun e => e.children) |>.bind (fun l => l.get? 0) with
      | none => .error .typeError
      | some (kind, d) =>
        let post := parsePost (RawNode.wrapped kind d)
        let commentChildren := ((elems.get? 1).bind (fun e => e.children)).getD []
        let comments := flattenComments commentChildren post.author 3
        .ok { post := post, comments := comments, total_comments := post.num_comments }

/-- Raw payload with every field absent (all-defaults input). -/
def rawEmpty : RawData :=
  RawData.mk none none none none none none none none none none none none
    none none none none none none none none

/-- C4: for every input string and cap: if the input is longer than the
cap, the result has length exactly cap + 3 and ends with "..."; otherwise
the input is returned unchanged; `parsePost` applies the rule to
`body_preview` with cap 500 and `parseComment` to `body` with cap 1000. -/
theorem truncate_caps_spec (s : String) (cap : Nat) :
    (cap < s.length → (truncate s cap).length = cap + 3 ∧
      ∃ t, truncate s cap = t ++ "...") ∧
    (s.length ≤ cap → truncate s cap = s) ∧
    (∀ nd : RawNode,
      (parsePost nd).body_preview = truncate (strOr (unwrapNode nd).fselftext "") 500) ∧
    (∀ (nd : RawNode) (op : String),
      (parseComment nd op).body = truncate (strOr (unwrapNode nd).fbody "") 1000) := by
  refine ⟨?_, ?_, fun nd => rfl, fun nd op => rfl⟩
  · intro h
    have hne : ¬ (s = "" ∨ s.length ≤ cap) := by
      rintro (rfl | hle)
      · simp [String.length] at h
      · omega
    constructor
    · rw [truncate, if_neg hne, String.length_append]
      have h1 : (String.mk (s.data.take cap)).length = (s.data.take cap).length := rfl
      have h2 : s.length = s.data.length := rfl
      have h3 : ("..." : String).length = 3 := rfl
      rw [h1, h3, List.length_take]
      omega
    · exact ⟨String.mk (s.data.take cap), by rw [truncate, if_neg hne]⟩
  · intro h
    rw [truncate, if_pos (Or.inr h)]

/-- Witness for `truncate_caps_spec` at concrete inputs. -/
theorem truncate_caps_spec_witness :
    (truncate "abcdef" 4).length = 4 + 3 ∧
    (∃ t, truncate "abcdef" 4 = t ++ "...") ∧
    truncate "abc" 4 = "abc" :=
  ⟨((truncate_caps_spec "abcdef" 4).1 (by decide)).1,
   ((truncate_caps_spec "abcdef" 4).1 (by decide)).2,
   (truncate_caps_spec "abc" 4).2.1 (by decide)⟩

/-- C6: the normalizers are insensitive to the wrapped/bare node shape:
the wrapped node with payload `d` and the bare payload `d` project to the
same Post and the same Comment record. -/
theorem parse_dual_shape_tolerant (kind : String) (d : RawData) (op : String) :
    parsePost (RawNode.wrapped kind d) = parsePost (RawNode.bare d) ∧
    parseComment (RawNode.wrapped kind d) op = parseComment (RawNode.bare d) op :=
  ⟨rfl, rfl⟩

/-- C2: the flattener's output is exactly the pre-order traversal of all
non-continuation nodes of the loaded tree (`visitOrder`, which descends
into every non-continuation node's children unconditionally), normalized
by `parseComment` and filtered to the records whose depth is at most
`maxDepth` — so a non-continuation node is emitted iff its depth is at
most `maxDepth`, while traversal itself is not depth-bounded. -/
theorem flattenComments_pre_order_filter (cs : List (String × RawData))
    (op : String) (md : Int) :
    flattenComments cs op md =
      ((visitOrder cs).map (fun n => parseComment (RawNode.wrapped n.1 n.2) op)).filter
        (fun c => decide (c.depth ≤ md)) :=
  flattenComments_eq_filter_visitOrder cs op md

/-- C5: a continuation (`kind = "more"`) node contributes no record and is
not traversed: the flattener's output and the traversal sequence over a
forest starting with a `more` node — whatever payload and loaded replies
it carries — are those of the remaining siblings alone. -/
theorem flattenComments_skips_continuation (d : RawData)
    (rest : List (String × RawData)) (op : String) (md : Int) :
    flattenComments (("more", d) :: rest) op md = flattenComments rest op md ∧
    visitOrder (("more", d) :: rest) = visitOrder rest :=
  ⟨flattenComments_more d rest op md, visitOrder_more d rest⟩

/-- C9: the flattener is a total function of the finite loaded tree (it is
defined by recursion that descends only into `replies` children, with
`sizeOf` decreasing), and its output is bounded by the total node count of
the input forest, for every `maxDepth`. -/
theorem flattenComments_total_bounded (cs : List (String × RawData))
    (op : String) (md : Int) :
    (flattenComments cs op md).length ≤ nodeCount cs := by
  rw [flattenComments_eq_filter_visitOrder]
  calc ((((visitOrder cs).map
          (fun n => parseComment (RawNode.wrapped n.1 n.2) op)).filter
            (fun c => decide (c.depth ≤ md)))).length
      ≤ (((visitOrder cs).map
          (fun n => parseComment (RawNode.wrapped n.1 n.2) op))).length :=
        List.length_filter_le _ _
    _ = (visitOrder cs).length := List.length_map _ _
    _ ≤ nodeCount cs := visitOrder_length_le_nodeCount cs

/-- C10: `searchReddit` maps every response child to a Post in source
order with no local cap: the result list is exactly the `parsePost` image
of the children array, `total_results` is its length, the result length
exceeds any `limit` the response overshoots, and `limit` only enters the
query string clamped to at most 100. -/
theorem searchReddit_maps_all_children (children : List (String × RawData))
    (limit : Nat) :
    (searchRedditCore children).results =
      children.map (fun c => parsePost (RawNode.wrapped c.1 c.2)) ∧
    (searchRedditCore children).total_results =
      (searchRedditCore children).results.length ∧
    (limit < children.length →
      limit < (searchRedditCore children).results.length) ∧
    redditQueryLimit limit ≤ 100 := by
  refine ⟨rfl, rfl, ?_, Nat.min_le_right _ _⟩
  intro h
  simpa [searchRedditCore] using h

/-- Witness for `searchReddit_maps_all_children`: a 2-child response with
`limit = 1` yields more than one result. -/
theorem searchReddit_maps_all_children_witness :
    1 < (searchRedditCore [("t3", rawEmpty), ("t3", rawEmpty)]).results.length :=
  (searchReddit_maps_all_children [("t3", rawEmpty), ("t3", rawEmpty)] 1).2.2.1
    (by decide)

theorem cardLoop_length_le (cardIds : List String) (seen : List String)
    (results : List MarketplaceListing) (loc : String) (limit : Nat)
    (h : results.length ≤ limit) :
    (cardLoop cardIds seen results loc limit).length ≤ limit := by
  induction cardIds generalizing seen results with
  | nil => simpa [cardLoop] using h
  | cons i rest ih =>
    rw [cardLoop]
    by_cases hstop : ¬ results.length < limit
    · rw [if_pos hstop]; exact h
    · rw [if_neg hstop]
      push_neg at hstop
      by_cases hi : i ∈ seen
      · rw [if_pos hi]; exact ih _ _ h
      · rw [if_neg hi]
        refine ih _ _ ?_
        simp only [List.length_append, List.length_cons, List.length_nil]
        omega

/-- C3: for every extraction outcome and match stream, both search-style
operations return at most `limit` results, and `searchMarketplace`'s
`total_results` equals the length of its returned `results` array
(`getNewListings` returns `since` instead of a total). -/
theorem search_capped_and_total_consistent (fbData : Option FbData)
    (cardIds : List String) (location : Option String) (limit : Nat)
    (sinceTime : String) :
    (searchMarketplaceCore fbData cardIds location limit).results.length ≤ limit ∧
    (searchMarketplaceCore fbData cardIds location limit).total_results =
      (searchMarketplaceCore fbData cardIds location limit).results.length ∧
    (getNewListingsCore fbData cardIds sinceTime limit).results.length ≤ limit := by
  have hpre : ∀ (loc : String),
      (match fbData with
        | some (.withListings items) => (items.take limit).map (structuredListing loc)
        | _ => cardLoop cardIds [] [] loc limit).length ≤ limit := by
    intro loc
    rcases fbData with _ | fb
    · exact cardLoop_length_le cardIds [] [] loc limit (by simp)
    · rcases fb with items | _
      · simp only [List.length_map, List.length_take]
        omega
      · exact cardLoop_length_le cardIds [] [] loc limit (by simp)
  refine ⟨?_, ?_, ?_⟩
  · simp only [searchMarketplaceCore]
    exact le_trans (List.length_take_le _ _) (le_refl _)
  · simp only [searchMarketplaceCore]
    rw [List.length_take, Nat.min_eq_right (hpre (strOr location ""))]
  · simp only [getNewListingsCore]
    exact le_trans (List.length_take_le _ _) (le_refl _)

theorem cardLoop_pairwise (cardIds : List String) (seen : List String)
    (results : List MarketplaceListing) (loc : String) (limit : Nat)
    (hsub : ∀ r ∈ results, r.id ∈ seen)
    (hp : results.Pairwise (fun a b => a.id ≠ b.id)) :
    (cardLoop cardIds seen results loc limit).Pairwise
      (fun a b => a.id ≠ b.id) := by
  induction cardIds generalizing seen results with
  | nil => simpa [cardLoop] using hp
  | cons i rest ih =>
    rw [cardLoop]
    by_cases hstop : ¬ results.length < limit
    · rw [if_pos hstop]; exact hp
    · rw [if_neg hstop]
      by_cases hi : i ∈ seen
      · rw [if_pos hi]; exact ih _ _ hsub hp
      · rw [if_neg hi]
        refine ih _ _ ?_ ?_
        · intro r hr
          rcases List.mem_append.mp hr with hr | hr
          · exact List.mem_cons_of_mem _ (hsub r hr)
          · simp only [List.mem_singleton] at hr
            subst hr
            simp [cardListing]
        · refine List.pairwise_append.mpr ⟨hp, List.pairwise_singleton _ _, ?_⟩
          intro a ha b hb
          simp only [List.mem_singleton] at hb
          subst hb
          intro hcontra
          have hmem : a.id ∈ seen := hsub a ha
          have hid : (cardListing loc i).id = i := rfl
          rw [hid] at hcontra
          exact hi (hcontra ▸ hmem)

theorem catLoop_pairwise (ms : List (String × String)) (seen : List String)
    (acc : List MarketplaceCategory)
    (hsub : ∀ c ∈ acc, c.id ∈ seen)
    (hp : acc.Pairwise (fun a b => a.id ≠ b.id)) :
    (catLoop ms seen acc).Pairwise (fun a b => a.id ≠ b.id) := by
  induction ms generalizing seen acc with
  | nil => simpa [catLoop] using hp
  | cons m rest ih =>
    rcases m with ⟨raw, nm⟩
    rw [catLoop]
    by_cases hi : stripTrailingSlash raw ∈ seen
    · simp only [if_pos hi]
      exact ih _ _ hsub hp
    · simp only [if_neg hi]
      refine ih _ _ ?_ ?_
      · intro c hc
        rcases List.mem_append.mp hc with hc | hc
        · exact List.mem_cons_of_mem _ (hsub c hc)
        · simp only [List.mem_singleton] at hc
          subst hc
          simp
      · refine List.pairwise_append.mpr ⟨hp, List.pairwise_singleton _ _, ?_⟩
        intro a ha b hb
        simp only [List.mem_singleton] at hb
        subst hb
        intro hcontra
        have hmem : a.id ∈ seen := hsub a ha
        change a.id = stripTrailingSlash raw at hcontra
        exact hi (hcontra ▸ hmem)

/-- C1 counterexample: when the embedded-state extractor succeeds with two
extracted tuples sharing an id (as the fallback tuple scan produces for a
document repeating the same `listing_id` block), `searchMarketplace`'s
structured branch returns two records with the same id — the per-call
dedup set exists only in the markup-fallback branch. -/
theorem search_structured_branch_duplicate_ids :
    ¬ List.Pairwise (fun a b => a.id ≠ b.id)
      (searchMarketplaceCore
        (some (FbData.withListings
          [{ id := "1", title := "a", price := 5, currency := "USD" },
           { id := "1", title := "b", price := 6, currency := "USD" }]))
        [] none 20).results := by
  decide

/-- C1 (amended): ids are pairwise distinct in every result collection
produced by the markup-fallback branch of `searchMarketplace` and
`getNewListings` (extractor returned nothing, or structured data without
`extracted_listings`), and in every `getCategories` result. -/
theorem fallback_and_categories_dedup (cardIds : List String)
    (location : Option String) (limit : Nat) (sinceTime : String)
    (ms : List (String × String)) :
    (searchMarketplaceCore none cardIds location limit).results.Pairwise
      (fun a b => a.id ≠ b.id) ∧
    (searchMarketplaceCore (some FbData.otherJson) cardIds location limit).results.Pairwise
      (fun a b => a.id ≠ b.id) ∧
    (getNewListingsCore none cardIds sinceTime limit).results.Pairwise
      (fun a b => a.id ≠ b.id) ∧
    (getNewListingsCore (some FbData.otherJson) cardIds sinceTime limit).results.Pairwise
      (fun a b => a.id ≠ b.id) ∧
    (getCategoriesCore ms).Pairwise (fun a b => a.id ≠ b.id) := by
  have hcard : ∀ loc : String,
      (cardLoop cardIds [] [] loc limit).Pairwise (fun a b => a.id ≠ b.id) :=
    fun loc => cardLoop_pairwise cardIds [] [] loc limit (by simp) (by simp)
  exact ⟨List.Pairwise.sublist (List.take_sublist _ _) (hcard _),
    List.Pairwise.sublist (List.take_sublist _ _) (hcard _),
    List.Pairwise.sublist (List.take_sublist _ _) (hcard _),
    List.Pairwise.sublist (List.take_sublist _ _) (hcard _),
    catLoop_pairwise ms [] [] (by simp) (by simp)⟩

/-- Top-level element count of the parsed thread response (0 when it is
not an array), used to state shape properties. -/
def threadTopLen (j : ThreadJson) : Nat :=
  match j with
  | .notArray => 0
  | .arr elems => elems.length

/-- Whether the parsed thread response passes `getThread`'s shape check:
`Array.isArray(json) && json.length >= 2`. -/
def threadShapeOk (j : ThreadJson) : Bool :=
  match j with
  | .notArray => false
  | .arr elems => decide (2 ≤ elems.length)

/-- C7 (amended): `getThread` raises its shape error exactly when the
parsed response is not an array of at least two elements; whenever it
returns a Thread, `total_comments` is the post's `num_comments`, not
recomputed from the flattened comments. -/
theorem getThread_shape_and_total (j : ThreadJson) :
    (getThreadCore j = .error .invalidShape ↔ threadShapeOk j = false) ∧
    (∀ t : RedditThread, getThreadCore j = .ok t →
      t.total_comments = t.post.num_comments) := by
  constructor
  · cases j with
    | notArray => simp [getThreadCore, threadShapeOk]
    | arr elems =>
      rw [getThreadCore, threadShapeOk]
      by_cases hl : elems.length < 2
      · rw [if_pos hl]
        simp
        omega
      · rw [if_neg hl]
        have hok : ¬ (decide (2 ≤ elems.length) = false) := by
          simp
          omega
        split
        · simp [hok]
        · simp [hok]
  · intro t h
    cases j with
    | notArray => simp [getThreadCore] at h
    | arr elems =>
      rw [getThreadCore] at h
      by_cases hl : elems.length < 2
      · rw [if_pos hl] at h
        cases h
      · rw [if_neg hl] at h
        split at h
        · cases h
        · injection h with ht
          subst ht
          rfl

/-- Example post node / expected post for the thread theorems. -/
def postEx : RedditPost := parsePost (RawNode.wrapped "t3" rawEmpty)

/-- Two-element thread response with the root post node present and an
empty top-level comment list. -/
def threadJson2 : ThreadJson :=
  ThreadJson.arr [{ children := some [("t3", rawEmpty)] }, { children := some [] }]

/-- Thread `getThread` produces for `threadJson2`. -/
def threadOut2 : RedditThread :=
  { post := postEx, comments := [], total_comments := postEx.num_comments }

/-- Witness for `getThread_shape_and_total`: the shape direction at a
non-array response, and the total-comments direction at `threadJson2`. -/
theorem getThread_shape_and_total_witness :
    getThreadCore ThreadJson.notArray = .error .invalidShape ∧
    threadOut2.total_comments = threadOut2.post.num_comments :=
  ⟨(getThread_shape_and_total ThreadJson.notArray).1.mpr (by decide),
   (getThread_shape_and_total threadJson2).2 threadOut2 (by
    have h1 : getThreadCore threadJson2 =
        .ok { post := postEx, comments := flattenComments [] postEx.author 3,
              total_comments := postEx.num_comments } := rfl
    rw [h1, flattenComments_nil]
    rfl)⟩

/-- Three-element thread response (same first two elements, one extra). -/
def threadJson3 : ThreadJson :=
  ThreadJson.arr [{ children := some [("t3", rawEmpty)] },
    { children := some [] }, { children := none }]

/-- C7 counterexample: a response that is not a two-element sequence — it
has three top-level elements — does not fail: `getThread` returns a
Thread, because the code only checks `json.length < 2`. -/
theorem getThread_three_elements_succeeds :
    threadTopLen threadJson3 = 3 ∧
    getThreadCore threadJson3 =
      .ok { post := postEx, comments := [],
            total_comments := postEx.num_comments } := by
  refine ⟨rfl, ?_⟩
  have h1 : getThreadCore threadJson3 =
      .ok { post := postEx, comments := flattenComments [] postEx.author 3,
            total_comments := postEx.num_comments } := rfl
  rw [h1, flattenComments_nil]

/-- Image-uri capture containing escaped path separators, as the image
regex produces them from the raw JSON in the document. -/
def imgEx : String := "https:\\/\\/cdn.example\\/marketplace\\/photo.jpg"

/-- The same uri with every escaped separator normalized to `/` — what
the spec says the images field should contain. -/
def imgExNormalized : String := "https://cdn.example/marketplace/photo.jpg"

/-- C8: the escaped-separator normalization never happens.  The replace
call's regex literal is `/\\\/\\\/g/` — the `g` is inside the pattern, not
a flag — so it replaces only a first literal `\/\/g` sequence; a typical
image uri is returned with its `\/` sequences intact, contradicting the
documented normalization.  The 10-image cap of the collection loop is also
recorded. -/
theorem images_not_normalized :
    listingImages [imgEx] = [imgEx] ∧
    listingImages [imgEx] ≠ [imgExNormalized] ∧
    (∀ ms : List String, (listingImages ms).length ≤ 10) := by
  refine ⟨by decide, by decide, ?_⟩
  intro ms
  have key : ∀ (ms acc : List String), acc.length ≤ 10 →
      (collectImages ms acc).length ≤ 10 := by
    intro ms
    induction ms with
    | nil => intro acc h; simpa [collectImages] using h
    | cons m rest ih =>
      intro acc h
      rw [collectImages]
      by_cases hstop : ¬ acc.length < 10
      · rw [if_pos hstop]; exact h
      · rw [if_neg hstop]
        push_neg at hstop
        refine ih _ ?_
        simp only [List.length_append, List.length_cons, List.length_nil]
        omega
  exact key ms [] (by simp)
